import Mathlib

/-!
Shallow embedding of the LSOC NeutronCommunicator agent (Rust) and proofs
about its version-control, settings and certificate subsystems.

External effects (process spawning, file I/O, HTTP, clocks) are passed in
as explicit oracle arguments; every function below mirrors the control
flow of the corresponding Rust function in `src/`.
-/

namespace NECO

/-- `APP_NAME` from `src/main.rs`: the agent's own component name. -/
def APP_NAME : String := "NeutronCommunicator"

/-- `BASE_DIRECTORY` from `src/main.rs`. -/
def BASE_DIRECTORY : String := "/etc/NeutronCommunicator/"

/-! ## Data model (`src/settings/structs.rs`, `src/version_control/structs.rs`) -/

/-- `CertificatePaths` from `src/settings/structs.rs`. -/
structure CertificatePaths where
  key : String
  cert : String
deriving Repr, DecidableEq

/-- `CACertificate` from `src/settings/structs.rs`. -/
structure CACertificate where
  encrypted : Bool
  duration : Int
  extensions : String
  subj : String
  main_paths : CertificatePaths
  auxiliary_paths : List CertificatePaths
  date_issued : Option String
  passphrase : String
deriving Repr, DecidableEq

/-- `MainCertificate` from `src/settings/structs.rs`. -/
structure MainCertificate where
  encrypted : Bool
  duration : Int
  key_len : Int
  subj : String
  main_paths : CertificatePaths
  auxiliary_paths : List CertificatePaths
  service_ips : List String
  date_issued : Option String
  passphrase : String
deriving Repr, DecidableEq

/-- `CertificateSettings` from `src/settings/structs.rs`.
`cert_authority = none` means the certificate is self-signed. -/
structure CertificateSettings where
  component_name : String
  algorithm : String
  cert_authority : Option CACertificate
  main_certificate : MainCertificate
deriving Repr, DecidableEq

/-- `UpdateComponent` from `src/settings/structs.rs`. -/
structure UpdateComponent where
  name : String
  version_file_path : String
  permission_user : String
  permission_group : String
  file_permissions : String
  container_name : Option String
  service_name : Option String
  restart_command : String
deriving Repr, DecidableEq

/-- `NeutronMqttClient` from `src/settings/structs.rs`. -/
structure NeutronMqttClient where
  username : String
  password : String
deriving Repr, DecidableEq

/-- `ComponentMqttClient` from `src/settings/structs.rs`. -/
structure ComponentMqttClient where
  ip : String
  port : String
  username : String
  password : String
  cafile : String
deriving Repr, DecidableEq

/-- `Settings` from `src/settings/structs.rs`. -/
structure Settings where
  neutron_account_username : String
  neutron_mqtt_client : NeutronMqttClient
  component_mqtt_client : ComponentMqttClient
  application_name : String
  update_branch : String
  update_components : List UpdateComponent
  certificates : List CertificateSettings
deriving Repr, DecidableEq

/-- `Update` from `src/version_control/structs.rs`. -/
structure Update where
  chainlink : Bool
  checksum : String
  version : String
  changelog : String
  file_size : Option String
deriving Repr, DecidableEq

/-- `UpdateManifest` from `src/version_control/structs.rs`: a map from
component name to its ordered (oldest-to-newest) update list.  The Rust
`BTreeMap` is embedded as an association list; its keys are unique. -/
structure UpdateManifest where
  list : List (String × List Update)
deriving Repr, DecidableEq

/-! ## External command outcomes

A spawned child process either fails to spawn (`Command::output()` returns
`Err`) or runs and yields captured output; the agent only ever inspects the
captured `stderr`, so that is all the embedding records. -/

/-- Outcome of `Command::output()` as the agent observes it. -/
inductive CmdOutcome where
  | spawnErr
  | output (stderr : String)
deriving Repr, DecidableEq

/-! ## C8: `set_file_permissions` (`src/version_control/security.rs`) -/

/-- `set_file_permissions` from `src/version_control/security.rs`.
The two oracles are the outcomes of the `chmod` and `chown` child
processes.  Returns the function's `Result` value paired with whether the
`chown` command was run at all (in the source, `chown` is only reached
after the `chmod` match succeeds with empty stderr). -/
def set_file_permissions (chmodOut chownOut : CmdOutcome) :
    Except Unit Unit × Bool :=
  match chmodOut with
  | .spawnErr => (.error (), false)
  | .output s =>
    if s = "" then
      match chownOut with
      | .spawnErr => (.error (), true)
      | .output t => if t = "" then (.ok (), true) else (.error (), true)
    else
      (.error (), false)

/-- C8: `set_file_permissions` runs `chmod` before `chown`; `chown` is run
exactly when `chmod` spawned and produced empty stderr (so any `chmod`
failure returns an error without running `chown`), and the function
returns `Ok` exactly when both `chmod` and `chown` spawned successfully
and produced empty stderr. -/
theorem set_file_permissions_correct (chmodOut chownOut : CmdOutcome) :
    ((set_file_permissions chmodOut chownOut).1 = .ok () ↔
      chmodOut = .output "" ∧ chownOut = .output "") ∧
    ((set_file_permissions chmodOut chownOut).2 = true ↔
      chmodOut = .output "") := by
  cases chmodOut with
  | spawnErr => simp [set_file_permissions]
  | output s =>
    by_cases hs : s = ""
    · subst hs
      cases chownOut with
      | spawnErr => simp [set_file_permissions]
      | output t =>
        by_cases ht : t = "" <;> simp [set_file_permissions, ht]
    · cases chownOut <;> simp [set_file_permissions, hs]

/-! ## C2: settings load/save (`src/settings/mod.rs`) -/

/-- The synthetic agent `UpdateComponent` pushed by `load_settings`
(`src/settings/mod.rs`, lines 82–91). -/
def necoUpdateComponent : UpdateComponent :=
  { name := APP_NAME
    version_file_path := ""
    permission_user := "root"
    permission_group := "root"
    file_permissions := "700"
    container_name := none
    service_name := some "neutroncommunicator.service"
    restart_command := "" }

/-- The `position`/`remove` pair in `save_to_file`: drop the first update
component whose name is `APP_NAME`, keep everything else. -/
def removeFirstNeco : List UpdateComponent → List UpdateComponent
  | [] => []
  | c :: rest => if c.name = APP_NAME then rest else c :: removeFirstNeco rest

/-- `save_to_file` from `src/settings/mod.rs`: the `Settings` document as it
is written to disk (JSON serialization of the struct is modeled as the
struct itself; serde round-trips the remaining fields verbatim). -/
def save_to_file (s : Settings) : Settings :=
  { s with update_components := removeFirstNeco s.update_components }

/-- `load_settings` from `src/settings/mod.rs` applied to an on-disk
document that parses: pushes the synthetic agent component at the end of
`update_components`. -/
def load_settings (disk : Settings) : Settings :=
  { disk with
    update_components := disk.update_components ++ [necoUpdateComponent] }

/-- Stripping the synthetic agent entry: remove every update component
bearing the agent's name. -/
def stripAgent (s : Settings) : Settings :=
  { s with
    update_components :=
      s.update_components.filter (fun c => c.name != APP_NAME) }

theorem filter_removeFirstNeco (l : List UpdateComponent) :
    (removeFirstNeco l).filter (fun c => c.name != APP_NAME) =
      l.filter (fun c => c.name != APP_NAME) := by
  induction l with
  | nil => rfl
  | cons c rest ih =>
    by_cases hc : c.name = APP_NAME
    · simp [removeFirstNeco, hc]
    · simp [removeFirstNeco, hc, ih]

theorem removeFirstNeco_no_agent (l : List UpdateComponent)
    (h : l.countP (fun c => c.name == APP_NAME) ≤ 1) :
    ∀ c ∈ removeFirstNeco l, c.name ≠ APP_NAME := by
  induction l with
  | nil => simp [removeFirstNeco]
  | cons c rest ih =>
    by_cases hc : c.name = APP_NAME
    · intro d hd hdname
      rw [removeFirstNeco, if_pos hc] at hd
      have hcnt : 0 < rest.countP (fun c => c.name == APP_NAME) :=
        List.countP_pos_iff.mpr ⟨d, hd, by simp [hdname]⟩
      have h' : rest.countP (fun c => c.name == APP_NAME) + 1 ≤ 1 := by
        have h2 := h
        rw [List.countP_cons] at h2
        simpa [hc] using h2
      omega
    · intro d hd hdname
      rw [removeFirstNeco, if_neg hc] at hd
      rcases List.mem_cons.mp hd with h1 | h2
      · exact hc (h1 ▸ hdname)
      · rw [List.countP_cons] at h
        exact ih (by omega) d h2 hdname

/-- C2: saving strips the agent's synthetic `UpdateComponent` (so, for a
settings value whose component names are unique — the documented settings
invariant — the agent entry is never present on disk), loading re-appends
the fresh synthetic agent entry at the end, and the load∘save round trip
is the identity up to stripping the agent entry. -/
theorem settings_roundtrip (S : Settings)
    (h : S.update_components.countP (fun c => c.name == APP_NAME) ≤ 1) :
    stripAgent (load_settings (save_to_file S)) = stripAgent S ∧
    (∀ c ∈ (save_to_file S).update_components, c.name ≠ APP_NAME) ∧
    (load_settings (save_to_file S)).update_components =
      (save_to_file S).update_components ++ [necoUpdateComponent] := by
  refine ⟨?_, removeFirstNeco_no_agent _ h, rfl⟩
  simp only [stripAgent, load_settings, save_to_file]
  simp [List.filter_append, filter_removeFirstNeco, necoUpdateComponent]

/-- Concrete witness for `settings_roundtrip`. -/
theorem settings_roundtrip_witness :
    ∃ S : Settings,
      S.update_components.countP (fun c => c.name == APP_NAME) ≤ 1 ∧
      (stripAgent (load_settings (save_to_file S)) = stripAgent S ∧
       (∀ c ∈ (save_to_file S).update_components, c.name ≠ APP_NAME) ∧
       (load_settings (save_to_file S)).update_components =
         (save_to_file S).update_components ++ [necoUpdateComponent]) := by
  refine ⟨{ neutron_account_username := "u"
            neutron_mqtt_client := { username := "nu", password := "np" }
            component_mqtt_client :=
              { ip := "1.2.3.4", port := "8883", username := "cu",
                password := "cp", cafile := "/etc/ca.crt" }
            application_name := "LSOC"
            update_branch := "stable"
            update_components :=
              [{ name := "BlackBox", version_file_path := "/etc/bb.version",
                 permission_user := "root", permission_group := "root",
                 file_permissions := "700", container_name := none,
                 service_name := some "blackbox.service",
                 restart_command := "systemctl restart blackbox.service" },
               necoUpdateComponent]
            certificates := [] }, ?_, ?_⟩
  · decide
  · exact settings_roundtrip _ (by decide)

/-! ## C9: `init_component_versions` (`src/version_control/mod.rs`) -/

/-- `BTreeMap::insert` on an association list: replace the value at an
existing key, otherwise add the binding (keys stay unique). -/
def btreeInsert (k v : String) :
    List (String × String) → List (String × String)
  | [] => [(k, v)]
  | (k', v') :: rest =>
    if k' = k then (k, v) :: rest else (k', v') :: btreeInsert k v rest

/-- `BTreeMap` lookup on an association list. -/
def btreeLookup (k : String) : List (String × String) → Option String
  | [] => none
  | (k', v) :: rest => if k' = k then some v else btreeLookup k rest

/-- `init_component_versions` from `src/version_control/mod.rs`.
`appVersion` is the compiled-in `APP_VERSION`; the oracle `readFile`
models `File::open` plus `read_to_string` (`none` = either step failed).
Returns the versions map together with the list of version-file paths the
function tried to open, in order. -/
def init_component_versions (appVersion : String)
    (readFile : String → Option String) (components : List UpdateComponent) :
    List (String × String) × List String :=
  components.foldl
    (fun acc component =>
      if component.name = APP_NAME then acc
      else
        match readFile component.version_file_path with
        | some contents =>
          (btreeInsert component.name contents.trim acc.1,
           acc.2 ++ [component.version_file_path])
        | none => (acc.1, acc.2 ++ [component.version_file_path]))
    ([(APP_NAME, appVersion)], [])

theorem btreeLookup_insert_ne (k v q : String) (m : List (String × String))
    (h : k ≠ q) : btreeLookup q (btreeInsert k v m) = btreeLookup q m := by
  induction m with
  | nil => simp [btreeInsert, btreeLookup, h]
  | cons p rest ih =>
    obtain ⟨k', v'⟩ := p
    by_cases hk : k' = k
    · subst hk
      simp [btreeInsert, btreeLookup, h]
    · simp [btreeInsert, btreeLookup, hk, ih]

theorem init_component_versions_aux (appVersion : String)
    (readFile : String → Option String) (components : List UpdateComponent)
    (m0 : List (String × String)) (p0 : List String)
    (h : btreeLookup APP_NAME m0 = some appVersion) :
    btreeLookup APP_NAME
        (components.foldl
          (fun acc component =>
            if component.name = APP_NAME then acc
            else
              match readFile component.version_file_path with
              | some contents =>
                (btreeInsert component.name contents.trim acc.1,
                 acc.2 ++ [component.version_file_path])
              | none => (acc.1, acc.2 ++ [component.version_file_path]))
          (m0, p0)).1 = some appVersion ∧
    (components.foldl
          (fun acc component =>
            if component.name = APP_NAME then acc
            else
              match readFile component.version_file_path with
              | some contents =>
                (btreeInsert component.name contents.trim acc.1,
                 acc.2 ++ [component.version_file_path])
              | none => (acc.1, acc.2 ++ [component.version_file_path]))
          (m0, p0)).2 =
      p0 ++ (components.filter (fun c => c.name != APP_NAME)).map
        (fun c => c.version_file_path) := by
  induction components generalizing m0 p0 with
  | nil => simpa using h
  | cons c rest ih =>
    by_cases hc : c.name = APP_NAME
    · simpa [List.foldl_cons, hc] using ih m0 p0 h
    · cases hr : readFile c.version_file_path with
      | some contents =>
        have := ih (btreeInsert c.name contents.trim m0)
          (p0 ++ [c.version_file_path])
          (by rw [btreeLookup_insert_ne _ _ _ _ hc]; exact h)
        simpa [List.foldl_cons, hc, hr] using this
      | none =>
        have := ih m0 (p0 ++ [c.version_file_path]) h
        simpa [List.foldl_cons, hc, hr] using this

/-- C9: the versions map returned by `init_component_versions` maps the
agent's own name to the compiled-in application version, and input
components bearing the agent's name are skipped — exactly the version
files of the other components are opened — so the agent's entry is never
overwritten from disk. -/
theorem init_component_versions_correct (appVersion : String)
    (readFile : String → Option String) (components : List UpdateComponent) :
    btreeLookup APP_NAME
        (init_component_versions appVersion readFile components).1 =
      some appVersion ∧
    (init_component_versions appVersion readFile components).2 =
      (components.filter (fun c => c.name != APP_NAME)).map
        (fun c => c.version_file_path) := by
  have := init_component_versions_aux appVersion readFile components
    [(APP_NAME, appVersion)] [] (by simp [btreeLookup])
  simpa [init_component_versions] using this

/-! ## C7: CSR temp-path derivation (`src/encryption_certificates/mod.rs`) -/

/-- Rust `str::split('.')` on the underlying character list. -/
def splitDot : List Char → List (List Char)
  | [] => [[]]
  | c :: rest =>
    if c = '.' then [] :: splitDot rest
    else
      match splitDot rest with
      | s :: ss => (c :: s) :: ss
      | [] => [[c]]

/-- The CSR temp-path derivation shared by `gen_csr_sign_with_ca` and
`gen_csr_sign_with_key`: `key_path.split('.').take(1).collect::<String>()`
followed by `".csr"`, guarded by `key_path.contains('.')` (collecting the
first split segment is taking the list head). -/
def csrTempPath (keyPath : String) : Option String :=
  if keyPath.data.contains '.' then
    some (String.mk ((splitDot keyPath.data).headD [] ++ ".csr".data))
  else none

/-- Outcome of a `gen_csr_sign_with_*` call: the derived CSR temp path (if
the derivation succeeded), the `openssl` invocations actually executed
(argument lists, in order), and the returned `Result`. -/
structure CsrRun where
  csrPath : Option String
  commands : List (List String)
  result : Except Unit Unit
deriving Repr

/-- `gen_csr_sign_with_key` from `src/encryption_certificates/mod.rs`.
The oracle `spawn` gives each `openssl` child process's outcome; stderr
output is only logged by the source, so only spawn failures fail the
operation. -/
def gen_csr_sign_with_key (spawn : List String → CmdOutcome)
    (component_name signing_key : String) (signing_key_encrypted : Bool)
    (subj passphrase : String) (cert_duration : Int) (crt_path : String) :
    CsrRun :=
  match csrTempPath signing_key with
  | none => { csrPath := none, commands := [], result := .error () }
  | some csr_temp_path =>
    let csr : List String :=
      ["req", "-out", csr_temp_path, "-key", signing_key, "-new",
       "-subj", subj] ++
        (if signing_key_encrypted then ["-passin", "pass:" ++ passphrase]
         else [])
    let sign_csr : List String :=
      ["x509", "-req", "-days", toString cert_duration, "-in", csr_temp_path,
       "-signkey", signing_key, "-out", crt_path] ++
        (if signing_key_encrypted then ["-passin", "pass:" ++ passphrase]
         else [])
    let run : List (List String) × Except Unit Unit :=
      match spawn csr with
      | .spawnErr => ([csr], .error ())
      | .output _ =>
        match spawn sign_csr with
        | .spawnErr => ([csr, sign_csr], .error ())
        | .output _ => ([csr, sign_csr], .ok ())
    { csrPath := some csr_temp_path, commands := run.1, result := run.2 }

/-- `gen_csr_sign_with_ca` from `src/encryption_certificates/mod.rs`.
`sanTempFile` is the path of the temporary SAN ext-file if creating,
writing and keeping it succeeded (`none` collapses those failure modes);
it is only consulted when `service_ips` is non-empty. -/
def gen_csr_sign_with_ca (spawn : List String → CmdOutcome)
    (sanTempFile : Option String) (cert : CertificateSettings)
    (main_key_passphrase : String) : CsrRun :=
  match csrTempPath cert.main_certificate.main_paths.key with
  | none => { csrPath := none, commands := [], result := .error () }
  | some csr_temp_path =>
    let cmd_csr : List String :=
      ["req", "-out", csr_temp_path, "-key",
       cert.main_certificate.main_paths.key, "-new",
       "-subj", cert.main_certificate.subj] ++
        (if cert.main_certificate.encrypted then
          ["-passin", "pass:" ++ main_key_passphrase]
         else [])
    let run : List (List String) × Except Unit Unit :=
      match cert.cert_authority with
      | none => ([], .error ())
      | some ca =>
        let sanArgs : Option (List String) :=
          if cert.main_certificate.service_ips.isEmpty then some []
          else
            match sanTempFile with
            | some path => some ["-extfile", path, "-extensions", "SAN"]
            | none => none
        match sanArgs with
        | none => ([], .error ())
        | some extArgs =>
          let cmd_sign_crt : List String :=
            ["x509", "-req", "-in", csr_temp_path, "-CA", ca.main_paths.cert,
             "-CAkey", ca.main_paths.key, "-CAcreateserial",
             "-out", cert.main_certificate.main_paths.cert] ++ extArgs ++
            ["-days", toString cert.main_certificate.duration] ++
            (if ca.encrypted then ["-passin", "pass:" ++ ca.passphrase]
             else [])
          match spawn cmd_csr with
          | .spawnErr => ([cmd_csr], .error ())
          | .output _ =>
            match spawn cmd_sign_crt with
            | .spawnErr => ([cmd_csr, cmd_sign_crt], .error ())
            | .output _ => ([cmd_csr, cmd_sign_crt], .ok ())
    { csrPath := some csr_temp_path, commands := run.1, result := run.2 }

theorem splitDot_ne_nil (s : List Char) : splitDot s ≠ [] := by
  cases s with
  | nil => simp [splitDot]
  | cons c rest =>
    rw [splitDot]
    by_cases hc : c = '.'
    · simp [hc]
    · rw [if_neg hc]
      cases h : splitDot rest <;> simp

theorem splitDot_headD (s : List Char) :
    (splitDot s).headD [] = s.takeWhile (fun c => c != '.') := by
  induction s with
  | nil => rfl
  | cons c rest ih =>
    rw [splitDot]
    by_cases hc : c = '.'
    · subst hc
      simp [List.takeWhile_cons]
    · rw [if_neg hc]
      have hbc : (c != '.') = true := by simpa using hc
      cases h : splitDot rest with
      | nil => exact absurd h (splitDot_ne_nil rest)
      | cons s0 ss =>
        have hs0 : s0 = rest.takeWhile (fun c => c != '.') := by
          rw [← ih, h]; rfl
        simp [List.takeWhile_cons, hbc, hs0]

/-- C7: both `gen_csr_sign_with_key` and `gen_csr_sign_with_ca` derive the
temporary CSR path from the signing/leaf key path as the text before the
first `'.'` (the first segment of splitting on `'.'`) followed by
`".csr"`, and when the key path contains no dot they return an error
having run no `openssl` command. -/
theorem gen_csr_temp_path_correct (spawn : List String → CmdOutcome)
    (sanTempFile : Option String) (cert : CertificateSettings)
    (mainPass comp key : String) (enc : Bool) (subj pass : String)
    (dur : Int) (crt : String) :
    (key.data.contains '.' = false →
      gen_csr_sign_with_key spawn comp key enc subj pass dur crt =
        { csrPath := none, commands := [], result := .error () }) ∧
    (key.data.contains '.' = true →
      (gen_csr_sign_with_key spawn comp key enc subj pass dur crt).csrPath =
        some (String.mk
          (key.data.takeWhile (fun c => c != '.') ++ ".csr".data))) ∧
    (cert.main_certificate.main_paths.key.data.contains '.' = false →
      gen_csr_sign_with_ca spawn sanTempFile cert mainPass =
        { csrPath := none, commands := [], result := .error () }) ∧
    (cert.main_certificate.main_paths.key.data.contains '.' = true →
      (gen_csr_sign_with_ca spawn sanTempFile cert mainPass).csrPath =
        some (String.mk (cert.main_certificate.main_paths.key.data.takeWhile
          (fun c => c != '.') ++ ".csr".data))) := by
  have hk : ∀ p : String, p.data.contains '.' = false → csrTempPath p = none := by
    intro p hp
    rw [csrTempPath, if_neg (by rw [hp]; exact Bool.false_ne_true)]
  have hk' : ∀ p : String, p.data.contains '.' = true → csrTempPath p =
      some (String.mk (p.data.takeWhile (fun c => c != '.') ++ ".csr".data)) := by
    intro p hp
    rw [csrTempPath, if_pos hp, splitDot_headD]
  refine ⟨?_, ?_, ?_, ?_⟩
  · intro h
    rw [gen_csr_sign_with_key.eq_def, hk key h]
  · intro h
    rw [gen_csr_sign_with_key.eq_def, hk' key h]
  · intro h
    rw [gen_csr_sign_with_ca.eq_def, hk _ h]
  · intro h
    rw [gen_csr_sign_with_ca.eq_def, hk' _ h]

/-- Witness for `gen_csr_temp_path_correct` at concrete key paths: a
dotless key path errors with no command run, and the multi-dot path
`/etc/ca.v2.key` derives `/etc/ca.csr`. -/
theorem gen_csr_temp_path_correct_witness :
    ("noext".data.contains '.' = false ∧
      gen_csr_sign_with_key (fun _ => .spawnErr) "c" "noext" false "/CN=x" ""
          365 "/etc/x.crt" =
        { csrPath := none, commands := [], result := .error () }) ∧
    ("/etc/ca.v2.key".data.contains '.' = true ∧
      (gen_csr_sign_with_key (fun _ => .spawnErr) "c" "/etc/ca.v2.key" false
          "/CN=x" "" 365 "/etc/x.crt").csrPath = some "/etc/ca.csr") := by
  have h1 := (gen_csr_temp_path_correct (fun _ => .spawnErr) none
    ⟨"c", "rsa:2048", none, ⟨false, 1, 1, "s", ⟨"k", "c"⟩, [], [], none, ""⟩⟩
    "" "c" "noext" false "/CN=x" "" 365 "/etc/x.crt").1
  have h2 := (gen_csr_temp_path_correct (fun _ => .spawnErr) none
    ⟨"c", "rsa:2048", none, ⟨false, 1, 1, "s", ⟨"k", "c"⟩, [], [], none, ""⟩⟩
    "" "c" "/etc/ca.v2.key" false "/CN=x" "" 365 "/etc/x.crt").2.1
  refine ⟨⟨by decide, h1 (by decide)⟩, ⟨by decide, ?_⟩⟩
  rw [h2 (by decide)]
  decide

/-! ## C4: `unpack_updates` (`src/version_control/mod.rs`) -/

/-- `unpack_updates` from `src/version_control/mod.rs`.  The oracle
`unzip` gives the outcome of `unzip <archive> -d <archive>-extracted` for
each archive path.  Returns the inflated map paired with the list of
archive paths passed to `remove_file`.  Note the source's control flow: an
`Ok` outcome with non-empty stderr `continue`s (no deletion, no push), but
the spawn-failure arm only logs, then falls through to the deletion and
the push. -/
def unpack_updates (unzip : String → CmdOutcome)
    (verified_updates : List (String × List String)) :
    List (String × List String) × List String :=
  verified_updates.foldl
    (fun acc component =>
      let step := component.2.foldl
        (fun (st : List String × List String) update =>
          match unzip update with
          | .output stderr =>
            if stderr ≠ "" then st
            else (st.1 ++ [update ++ "-extracted" ++ "/"], st.2 ++ [update])
          | .spawnErr =>
            (st.1 ++ [update ++ "-extracted" ++ "/"], st.2 ++ [update]))
        ([], [])
      (acc.1 ++ [(component.1, step.1)], acc.2 ++ step.2))
    ([], [])

/-- C4 (failing input): when the `unzip` invocation fails to spawn, the
archive is nevertheless deleted and its extracted path admitted to the
result — contradicting the claim (and the function's own doc comment)
that the archive is deleted only on success.  An `Ok` outcome with
non-empty stderr, by contrast, keeps the archive. -/
theorem unpack_updates_spawn_failure_deletes :
    unpack_updates (fun _ => .spawnErr) [("CompA", ["/tmp/a/1"])] =
      ([("CompA", ["/tmp/a/1-extracted/"])], ["/tmp/a/1"]) ∧
    unpack_updates (fun _ => .output "err") [("CompA", ["/tmp/a/1"])] =
      ([("CompA", [])], []) := by
  constructor <;> decide

/-! ## C3: `cook` (`src/version_control/recipe_processor.rs`) -/

/-- Outcome of one recipe instruction as `cook` observes it.  `copy` and
`copy_dir` carry the `Result` of `digest_copy`/`digest_copy_dir`;
`run_command` and `run_script` carry whether the spawned process's stderr
was empty — `digest_run`/`digest_script` merely log a non-empty stderr as
an error and return nothing. -/
inductive InstructionRun where
  | copy (ok : Bool)
  | copy_dir (ok : Bool)
  | run_command (stderrEmpty : Bool)
  | run_script (stderrEmpty : Bool)
  | unknown
deriving Repr, DecidableEq

/-- One cookbook entry as assembled by `get_recipes`. -/
structure CookbookEntry where
  component : String
  restart_command : String
  restart : Bool
  final_version : String
  updates : List InstructionRun
deriving Repr, DecidableEq

/-- The process-wide state `cook` touches: the `COMPONENT_VERSIONS` map
and the `RESTART_NECO` flag. -/
structure CookState where
  component_versions : List (String × String)
  restart_neco : Bool
deriving Repr, DecidableEq

/-- `restart_set_component_version` from
`src/version_control/recipe_processor.rs`.  Returns the updated state and
the function's boolean (`true` iff no error was raised).  Mutex
acquisition always succeeds in the embedding; the
`find_leftover_updates` side path (agent component, `restart = false`)
does not touch the versions map or the flag. -/
def restart_set_component_version (st : CookState) (restart : Bool)
    (component_name restart_command version : String) : CookState × Bool :=
  if component_name = APP_NAME then
    let st' := if restart then { st with restart_neco := true } else st
    let known := (btreeLookup APP_NAME st'.component_versions).isSome
    ({ st' with
        component_versions :=
          btreeInsert APP_NAME version st'.component_versions }, known)
  else
    let known := (btreeLookup component_name st.component_versions).isSome
    ({ st with
        component_versions :=
          btreeInsert component_name version st.component_versions }, known)

/-- One iteration of `cook`'s component loop: run the instructions, then
the restart/version-commit step.  Returns the updated state and the value
`is_succesfull` is assigned for this component (`!erroneous`).  Per the
source, only a failing `copy`/`copy_dir` and a false return from
`restart_set_component_version` set `erroneous`; `run_command` and
`run_script` outcomes are logged only. -/
def cookComponent (st : CookState) (entry : CookbookEntry) :
    CookState × Bool :=
  let instrErr := entry.updates.any fun i =>
    match i with
    | .copy ok => !ok
    | .copy_dir ok => !ok
    | _ => false
  let step := restart_set_component_version st entry.restart entry.component
    entry.restart_command entry.final_version
  (step.1, !(instrErr || !step.2))

/-- `cook` from `src/version_control/recipe_processor.rs`:
`is_succesfull` starts `true` and is reassigned (not and-ed) on every
component, so the fold keeps only the last component's flag. -/
def cook (st : CookState) (cookbook : List CookbookEntry) :
    CookState × Bool :=
  cookbook.foldl (fun acc entry => cookComponent acc.1 entry) (st, true)

/-- The state after processing a prefix of the cookbook (instruction
outcomes never feed back into the state transition). -/
def cookStateAfter (st : CookState) (cookbook : List CookbookEntry) :
    CookState :=
  cookbook.foldl (fun s entry => (cookComponent s entry).1) st

/-- Spec-side reading of "the component completed all of its instructions
and its restart/version-commit step without error", where a non-empty
stderr from a `run_command`/`run_script` — which the source logs as an
error — counts as an instruction error. -/
def entryCompletedWithoutError (st : CookState) (e : CookbookEntry) :
    Bool :=
  (e.updates.all fun i =>
    match i with
    | .copy ok => ok
    | .copy_dir ok => ok
    | .run_command ok => ok
    | .run_script ok => ok
    | .unknown => true) &&
  (restart_set_component_version st e.restart e.component e.restart_command
    e.final_version).2

theorem cook_fold_fst (st : CookState) (b : Bool)
    (l : List CookbookEntry) :
    (l.foldl (fun acc entry => cookComponent acc.1 entry) (st, b)).1 =
      cookStateAfter st l := by
  induction l generalizing st b with
  | nil => rfl
  | cons e rest ih =>
    rw [List.foldl_cons, cookStateAfter, List.foldl_cons]
    exact ih (cookComponent st e).1 (cookComponent st e).2

/-- C3 (counterexample to the claim as stated): a cookbook whose last
(only) component has a `run_command` instruction with non-empty stderr —
which the source logs as "Failed to digest run command", an error — still
makes `cook` return `true`, because `run_command` outcomes never set the
`erroneous` flag. -/
theorem cook_run_command_error_still_true :
    (cook { component_versions := [("BlackBox", "1")], restart_neco := false }
      [{ component := "BlackBox", restart_command := "c", restart := false,
         final_version := "2",
         updates := [.run_command false] }]).2 = true ∧
    entryCompletedWithoutError
      { component_versions := [("BlackBox", "1")], restart_neco := false }
      { component := "BlackBox", restart_command := "c", restart := false,
        final_version := "2", updates := [.run_command false] } = false := by
  constructor <;> decide

/-- C3 (amended): for every non-empty cookbook, `cook` returns `true` iff
the last-processed component had no failing `copy`/`copy_dir` instruction
and its restart/version-commit step raised no error; `run_command` and
`run_script` outcomes, and errors in earlier components, influence only
log output, never the returned boolean (the state threaded to the last
component is computed by `cookStateAfter`, which has no error input). -/
theorem cook_returns_last_component (st : CookState)
    (pre : List CookbookEntry) (e : CookbookEntry) :
    cook st (pre ++ [e]) = cookComponent (cookStateAfter st pre) e ∧
    (cook st (pre ++ [e])).2 =
      (!(e.updates.any fun i =>
          match i with
          | .copy ok => !ok
          | .copy_dir ok => !ok
          | _ => false) &&
        (restart_set_component_version (cookStateAfter st pre) e.restart
          e.component e.restart_command e.final_version).2) := by
  have h1 : cook st (pre ++ [e]) = cookComponent (cookStateAfter st pre) e := by
    rw [cook, List.foldl_append, List.foldl_cons, List.foldl_nil]
    rw [cook_fold_fst]
  refine ⟨h1, ?_⟩
  rw [h1, cookComponent]
  cases (restart_set_component_version (cookStateAfter st pre) e.restart
      e.component e.restart_command e.final_version).2 <;>
    cases (e.updates.any fun i =>
      match i with
      | .copy ok => !ok
      | .copy_dir ok => !ok
      | _ => false) <;> rfl

/-! ## C10: `append_cert_aux_paths` (`src/settings/encryption_certificates.rs`) -/

/-- Intermediate result of the certificate loop in
`append_cert_aux_paths`: the source can panic (out-of-bounds slice
index), return early with an error, or finish the loop with the rewritten
certificate list and the value of `failed_counter`. -/
inductive AuxLoopResult where
  | panics
  | errNotFound
  | errOther
  | done (certs : List CertificateSettings) (failed_counter : Nat)
deriving Repr, DecidableEq

/-- Final result of `append_cert_aux_paths`. -/
inductive AuxPathsResult where
  | panics
  | notFound
  | otherErr
  | ok (s : Settings)
deriving Repr, DecidableEq

/-- The `for cert in &mut settings.certificates` loop of
`append_cert_aux_paths`.  The oracles `genCA`/`genCert` give the outcomes
of `generate_ca(component_name, ca, true)` and
`generate_certificate(&cert, true)` (called with the already-mutated
certificate).  `aux_paths[0]`/`aux_paths[1]` are indexed — and can panic
— before either generator runs. -/
def append_cert_aux_paths_loop (genCA : String → CACertificate → Bool)
    (genCert : CertificateSettings → Bool)
    (component_name cert_type : String) (aux_paths : List String) :
    List CertificateSettings → AuxLoopResult
  | [] => .done [] 0
  | cert :: rest =>
    if cert.component_name = component_name then
      if cert_type = "ca" then
        match cert.cert_authority with
        | some ca =>
          match aux_paths[0]?, aux_paths[1]? with
          | some k, some c =>
            let ca' := { ca with
              auxiliary_paths := ca.auxiliary_paths ++ [{ key := k, cert := c }] }
            if genCA component_name ca' then
              match append_cert_aux_paths_loop genCA genCert component_name
                  cert_type aux_paths rest with
              | .done certs failed =>
                .done ({ cert with cert_authority := some ca' } :: certs) failed
              | r => r
            else .errOther
          | _, _ => .panics
        | none => .errNotFound
      else
        match aux_paths[0]?, aux_paths[1]? with
        | some k, some c =>
          let cert' := { cert with
            main_certificate := { cert.main_certificate with
              auxiliary_paths := cert.main_certificate.auxiliary_paths ++
                [{ key := k, cert := c }] } }
          if genCert cert' then
            match append_cert_aux_paths_loop genCA genCert component_name
                cert_type aux_paths rest with
            | .done certs failed => .done (cert' :: certs) failed
            | r => r
          else .errOther
        | _, _ => .panics
    else
      match append_cert_aux_paths_loop genCA genCert component_name cert_type
          aux_paths rest with
      | .done certs failed => .done (cert :: certs) (failed + 1)
      | r => r

/-- `append_cert_aux_paths` from
`src/settings/encryption_certificates.rs`.  `saveOk` is the outcome of
the final `save_to_file`. -/
def append_cert_aux_paths (genCA : String → CACertificate → Bool)
    (genCert : CertificateSettings → Bool) (saveOk : Bool)
    (settings : Settings) (component_name cert_type : String)
    (aux_paths : List String) : AuxPathsResult :=
  match append_cert_aux_paths_loop genCA genCert component_name cert_type
      aux_paths settings.certificates with
  | .panics => .panics
  | .errNotFound => .notFound
  | .errOther => .otherErr
  | .done certs failed =>
    if failed = settings.certificates.length then .notFound
    else if saveOk then .ok { settings with certificates := certs }
    else .otherErr

/-- A concrete self-signed certificate named "x". -/
def selfSignedX : CertificateSettings :=
  { component_name := "x"
    algorithm := "rsa:2048"
    cert_authority := none
    main_certificate :=
      { encrypted := false, duration := 365, key_len := 2048, subj := "/CN=x",
        main_paths := { key := "/tmp/x.key", cert := "/tmp/x.crt" },
        auxiliary_paths := [], service_ips := [], date_issued := none,
        passphrase := "" } }

/-- A concrete CA-signed certificate named "x". -/
def caSignedX : CertificateSettings :=
  { selfSignedX with
    cert_authority := some
      { encrypted := false, duration := 3650, extensions := "v3_ca",
        subj := "/CN=ca",
        main_paths := { key := "/tmp/ca.key", cert := "/tmp/ca.crt" },
        auxiliary_paths := [], date_issued := none, passphrase := "" } }

/-- A settings value holding exactly one certificate. -/
def settingsWithCert (c : CertificateSettings) : Settings :=
  { neutron_account_username := "u"
    neutron_mqtt_client := { username := "nu", password := "np" }
    component_mqtt_client :=
      { ip := "1.2.3.4", port := "8883", username := "cu", password := "cp",
        cafile := "/etc/ca.crt" }
    application_name := "LSOC"
    update_branch := "stable"
    update_components := []
    certificates := [c] }

/-- C10 (counterexample to the claim as stated): with a matching
certificate present and an empty `aux_paths` slice, the call
`append_cert_aux_paths(…, "x", "ca", [])` on a self-signed certificate
returns the `NotFound` error value — it neither indexes `aux_paths` nor
panics, because the `cert_type == "ca"` arm checks `cert_authority`
before touching the slice. -/
theorem append_cert_aux_paths_no_panic_counterexample :
    (settingsWithCert selfSignedX).certificates.any
      (fun c => c.component_name == "x") = true ∧
    append_cert_aux_paths (fun _ _ => true) (fun _ => true) true
      (settingsWithCert selfSignedX) "x" "ca" [] = .notFound := by
  constructor <;> decide

theorem append_cert_aux_paths_loop_short
    (genCA : String → CACertificate → Bool)
    (genCert : CertificateSettings → Bool)
    (component_name cert_type : String) (aux_paths : List String)
    (hlen : aux_paths.length < 2) (certs : List CertificateSettings)
    (c : CertificateSettings)
    (hfind : certs.find? (fun d => d.component_name == component_name) =
      some c) :
    append_cert_aux_paths_loop genCA genCert component_name cert_type
        aux_paths certs =
      (if cert_type = "ca" ∧ c.cert_authority = none then .errNotFound
       else .panics) := by
  have hidx : aux_paths[0]? = none ∨ aux_paths[1]? = none := by
    match aux_paths with
    | [] => exact Or.inl rfl
    | [a] => exact Or.inr rfl
    | a :: b :: t => exact absurd hlen (by simp)
  induction certs with
  | nil => simp at hfind
  | cons d rest ih =>
    rw [List.find?_cons] at hfind
    by_cases hd : d.component_name = component_name
    · simp only [hd, beq_self_eq_true] at hfind
      injection hfind with hdc
      subst hdc
      by_cases hty : cert_type = "ca"
      · cases hca : d.cert_authority with
        | none => simp [append_cert_aux_paths_loop, hd, hty, hca]
        | some ca =>
          rcases hidx with h0 | h1
          · simp [append_cert_aux_paths_loop, hd, hty, hca, h0]
          · cases h0 : aux_paths[0]? <;>
              simp [append_cert_aux_paths_loop, hd, hty, hca, h0, h1]
      · rcases hidx with h0 | h1
        · simp [append_cert_aux_paths_loop, hd, hty, h0]
        · cases h0 : aux_paths[0]? <;>
            simp [append_cert_aux_paths_loop, hd, hty, h0, h1]
    · have hbd : (d.component_name == component_name) = false := by
        simp [hd]
      rw [hbd] at hfind
      rw [append_cert_aux_paths_loop, if_neg hd, ih hfind]
      by_cases hres : cert_type = "ca" ∧ c.cert_authority = none <;>
        simp [hres]

/-- C10 (amended): whenever a certificate matching `component_name`
exists, `append_cert_aux_paths` reaches the indexing of `aux_paths[0]`
and `aux_paths[1]` — and a slice of length < 2 makes it panic rather
than return an error value — **except** when `cert_type == "ca"` and the
first matching certificate has no CA certificate, in which case the
`NotFound` error is returned without any indexing; a slice of length ≥ 2
never panics. -/
theorem append_cert_aux_paths_amended (genCA : String → CACertificate → Bool)
    (genCert : CertificateSettings → Bool) (saveOk : Bool)
    (settings : Settings) (component_name cert_type : String)
    (aux_paths : List String) (hlen : aux_paths.length < 2)
    (c : CertificateSettings)
    (hfind : settings.certificates.find?
      (fun d => d.component_name == component_name) = some c) :
    (append_cert_aux_paths genCA genCert saveOk settings component_name
        cert_type aux_paths =
      (if cert_type = "ca" ∧ c.cert_authority = none then .notFound
       else .panics)) ∧
    ∀ aux2 : List String, 2 ≤ aux2.length →
      append_cert_aux_paths genCA genCert saveOk settings component_name
        cert_type aux2 ≠ .panics := by
  constructor
  · rw [append_cert_aux_paths,
      append_cert_aux_paths_loop_short genCA genCert component_name cert_type
        aux_paths hlen settings.certificates c hfind]
    by_cases hres : cert_type = "ca" ∧ c.cert_authority = none <;>
      simp [hres]
  · intro aux2 h2
    have h0 : aux2[0]? = some aux2[0] := List.getElem?_eq_getElem (by omega)
    have h1 : aux2[1]? = some aux2[1] := List.getElem?_eq_getElem (by omega)
    have hloop : ∀ certs : List CertificateSettings,
        append_cert_aux_paths_loop genCA genCert component_name cert_type
          aux2 certs ≠ .panics := by
      intro certs
      induction certs with
      | nil => simp [append_cert_aux_paths_loop]
      | cons d rest ih =>
        by_cases hd : d.component_name = component_name
        · by_cases hty : cert_type = "ca"
          · subst hty
            cases hca : d.cert_authority with
            | none => simp [append_cert_aux_paths_loop, hd, hca]
            | some ca =>
              by_cases hgen : genCA component_name
                  { ca with auxiliary_paths := ca.auxiliary_paths ++
                    [{ key := aux2[0], cert := aux2[1] }] }
              · cases hrec : append_cert_aux_paths_loop genCA genCert
                  component_name "ca" aux2 rest
                all_goals first
                  | exact absurd hrec ih
                  | simp [append_cert_aux_paths_loop, hd, hca, h0, h1,
                      hgen, hrec]
              · simp [append_cert_aux_paths_loop, hd, hca, h0, h1, hgen]
          · cases hrec : append_cert_aux_paths_loop genCA genCert
              component_name cert_type aux2 rest
            all_goals first
              | exact absurd hrec ih
              | (simp [append_cert_aux_paths_loop, hd, hty, h0, h1, hrec] <;>
                  (try (split <;> simp)))
        · cases hrec : append_cert_aux_paths_loop genCA genCert component_name
            cert_type aux2 rest
          all_goals first
            | exact absurd hrec ih
            | simp [append_cert_aux_paths_loop, hd, hrec]
    rw [append_cert_aux_paths]
    cases hres : append_cert_aux_paths_loop genCA genCert component_name
        cert_type aux2 settings.certificates with
    | panics => exact absurd hres (hloop settings.certificates)
    | errNotFound => simp
    | errOther => simp
    | done certs failed =>
      by_cases hf : failed = settings.certificates.length
      · simp [hf]
      · by_cases hs : saveOk = true <;> simp [hf, hs]

/-- Witness for `append_cert_aux_paths_amended`: a CA-signed matching
certificate and an empty slice make the call panic. -/
theorem append_cert_aux_paths_amended_witness :
    ([] : List String).length < 2 ∧
    (settingsWithCert caSignedX).certificates.find?
      (fun d => d.component_name == "x") = some caSignedX ∧
    append_cert_aux_paths (fun _ _ => true) (fun _ => true) true
      (settingsWithCert caSignedX) "x" "ca" [] =
      (if "ca" = "ca" ∧ caSignedX.cert_authority = none then .notFound
       else .panics) := by
  refine ⟨by decide, by decide, ?_⟩
  exact (append_cert_aux_paths_amended (fun _ _ => true) (fun _ => true) true
    (settingsWithCert caSignedX) "x" "ca" [] (by decide) caSignedX
    (by decide)).1

/-! ## C1: `dload_and_verify_updates` (`src/version_control/mod.rs`) and
`compare_hash` (`src/version_control/security.rs`) -/

/-- `get_temp_folder_path` from `src/version_control/mod.rs`. -/
def get_temp_folder_path : String := BASE_DIRECTORY ++ ".vc-temp/version_control/"

/-- The download target of one update:
`format!("{}/{}", temp_folder + component, version)`. -/
def dloadFilePath (comp version : String) : String :=
  get_temp_folder_path ++ comp ++ "/" ++ version

/-- `compare_hash` from `src/version_control/security.rs`, relative to the
digest primitive `hexSha` (the lowercase-hex `HEXLOWER.encode` of the
streamed SHA-256 digest over the file's bytes): succeeds exactly when the
file's digest equals the expected hash. -/
def compare_hash (hexSha : List Nat → String) (bytes : List Nat)
    (hash : String) : Bool :=
  hexSha bytes == hash

/-- Result of `dload_and_verify_updates`: the returned verified map, and
the dirty file paths removed by the purge loop at the end. -/
structure DloadResult where
  verified : List (String × List String)
  dirty : List String
deriving Repr, DecidableEq

/-- The body of the per-update loop in `dload_and_verify_updates`: fetch
one update, write it to `file_path`, verify it with `compare_hash`, and
append the path to the good (`st.1`) or dirty (`st.2`) list. -/
def dloadStep (hexSha : List Nat → String)
    (dload : String → String → Option (List Nat)) (comp : String)
    (st : List String × List String) (update : Update) :
    List String × List String :=
  let file_path := (get_temp_folder_path ++ comp) ++ "/" ++ update.version
  match dload comp update.version with
  | some bytes =>
    if compare_hash hexSha bytes update.checksum then
      (st.1 ++ [file_path], st.2)
    else (st.1, st.2 ++ [file_path])
  | none => st

/-- The body of the per-component loop in `dload_and_verify_updates`:
create the component's temp directory, run the update loop, and record
the component's verified paths (only when non-empty) and dirty paths. -/
def dloadComponentStep (hexSha : List Nat → String)
    (dload : String → String → Option (List Nat))
    (createDirOk : String → Bool) (acc : DloadResult)
    (component : String × List Update) : DloadResult :=
  let tmp_dir_component_path := get_temp_folder_path ++ component.1
  if createDirOk tmp_dir_component_path then
    let inner := component.2.foldl (dloadStep hexSha dload component.1)
      ([], [])
    { verified := if inner.1.isEmpty then acc.verified
        else acc.verified ++ [(component.1, inner.1)],
      dirty := acc.dirty ++ inner.2 }
  else acc

/-- `dload_and_verify_updates` from `src/version_control/mod.rs`.
Oracles: `dload comp ver` models `reqwest::get` + `File::create` +
`io::copy` for one update (`some bytes` = the artifact's body was fetched
and written to the target file); `createRootOk` and `createDirOk` model
`create_dir_all` and the per-component `create_dir`. -/
def dload_and_verify_updates (hexSha : List Nat → String)
    (dload : String → String → Option (List Nat)) (createRootOk : Bool)
    (createDirOk : String → Bool) (update_manifest : UpdateManifest) :
    DloadResult :=
  if createRootOk then
    update_manifest.list.foldl
      (dloadComponentStep hexSha dload createDirOk)
      { verified := [], dirty := [] }
  else { verified := [], dirty := [] }

/-- The verified paths one component's update list contributes. -/
def verifiedPathsFor (hexSha : List Nat → String)
    (dload : String → String → Option (List Nat)) (comp : String)
    (upds : List Update) : List String :=
  upds.filterMap fun u =>
    match dload comp u.version with
    | some bytes =>
      if compare_hash hexSha bytes u.checksum then
        some (dloadFilePath comp u.version)
      else none
    | none => none

/-- The dirty (deleted) paths one component's update list contributes. -/
def dirtyPathsFor (hexSha : List Nat → String)
    (dload : String → String → Option (List Nat)) (comp : String)
    (upds : List Update) : List String :=
  upds.filterMap fun u =>
    match dload comp u.version with
    | some bytes =>
      if compare_hash hexSha bytes u.checksum then none
      else some (dloadFilePath comp u.version)
    | none => none

/-- The entry one manifest component contributes to the verified map. -/
def verifiedEntryFor (hexSha : List Nat → String)
    (dload : String → String → Option (List Nat))
    (createDirOk : String → Bool) (c : String × List Update) :
    Option (String × List String) :=
  if createDirOk (get_temp_folder_path ++ c.1) then
    if (verifiedPathsFor hexSha dload c.1 c.2).isEmpty then none
    else some (c.1, verifiedPathsFor hexSha dload c.1 c.2)
  else none

/-- The dirty paths one manifest component contributes. -/
def dirtyBlockFor (hexSha : List Nat → String)
    (dload : String → String → Option (List Nat))
    (createDirOk : String → Bool) (c : String × List Update) : List String :=
  if createDirOk (get_temp_folder_path ++ c.1) then
    dirtyPathsFor hexSha dload c.1 c.2
  else []

theorem dload_inner_fold (hexSha : List Nat → String)
    (dload : String → String → Option (List Nat)) (comp : String)
    (upds : List Update) (v0 d0 : List String) :
    upds.foldl (dloadStep hexSha dload comp) (v0, d0) =
      (v0 ++ verifiedPathsFor hexSha dload comp upds,
       d0 ++ dirtyPathsFor hexSha dload comp upds) := by
  induction upds generalizing v0 d0 with
  | nil => simp [verifiedPathsFor, dirtyPathsFor]
  | cons u rest ih =>
    rw [List.foldl_cons]
    cases hdl : dload comp u.version with
    | none =>
      have hstep : dloadStep hexSha dload comp (v0, d0) u = (v0, d0) := by
        simp [dloadStep, hdl]
      rw [hstep, ih v0 d0]
      simp [verifiedPathsFor, dirtyPathsFor, List.filterMap_cons, hdl]
    | some bytes =>
      cases hcmp : compare_hash hexSha bytes u.checksum with
      | true =>
        have hstep : dloadStep hexSha dload comp (v0, d0) u =
            (v0 ++ [(get_temp_folder_path ++ comp) ++ "/" ++ u.version],
             d0) := by
          simp [dloadStep, hdl, hcmp]
        rw [hstep,
          ih (v0 ++ [(get_temp_folder_path ++ comp) ++ "/" ++ u.version]) d0]
        simp [verifiedPathsFor, dirtyPathsFor, List.filterMap_cons, hdl, hcmp,
          dloadFilePath]
      | false =>
        have hstep : dloadStep hexSha dload comp (v0, d0) u =
            (v0,
             d0 ++ [(get_temp_folder_path ++ comp) ++ "/" ++ u.version]) := by
          simp [dloadStep, hdl, hcmp]
        rw [hstep,
          ih v0 (d0 ++ [(get_temp_folder_path ++ comp) ++ "/" ++ u.version])]
        simp [verifiedPathsFor, dirtyPathsFor, List.filterMap_cons, hdl, hcmp,
          dloadFilePath]

theorem dload_outer_fold (hexSha : List Nat → String)
    (dload : String → String → Option (List Nat))
    (createDirOk : String → Bool) (entries : List (String × List Update))
    (acc : DloadResult) :
    entries.foldl (dloadComponentStep hexSha dload createDirOk) acc =
    { verified := acc.verified ++
        entries.filterMap (verifiedEntryFor hexSha dload createDirOk),
      dirty := acc.dirty ++
        (entries.map (dirtyBlockFor hexSha dload createDirOk)).flatten } := by
  induction entries generalizing acc with
  | nil => simp
  | cons c rest ih =>
    rw [List.foldl_cons]
    by_cases hdir : createDirOk (get_temp_folder_path ++ c.1) = true
    · by_cases hemp : (verifiedPathsFor hexSha dload c.1 c.2).isEmpty = true
      · have hstep : dloadComponentStep hexSha dload createDirOk acc c =
            { verified := acc.verified,
              dirty := acc.dirty ++ dirtyPathsFor hexSha dload c.1 c.2 } := by
          rw [dloadComponentStep]
          simp only [hdir, if_true]
          rw [dload_inner_fold hexSha dload c.1 c.2 [] []]
          simp [hemp]
        rw [hstep, ih]
        simp [verifiedEntryFor, dirtyBlockFor, hdir, hemp,
          List.filterMap_cons]
      · have hstep : dloadComponentStep hexSha dload createDirOk acc c =
            { verified := acc.verified ++
                [(c.1, verifiedPathsFor hexSha dload c.1 c.2)],
              dirty := acc.dirty ++ dirtyPathsFor hexSha dload c.1 c.2 } := by
          rw [dloadComponentStep]
          simp only [hdir, if_true]
          rw [dload_inner_fold hexSha dload c.1 c.2 [] []]
          simp [hemp]
        rw [hstep, ih]
        simp [verifiedEntryFor, dirtyBlockFor, hdir, hemp,
          List.filterMap_cons, List.append_assoc]
    · have hstep : dloadComponentStep hexSha dload createDirOk acc c = acc := by
        rw [dloadComponentStep]
        simp [hdir]
      rw [hstep, ih]
      simp [verifiedEntryFor, dirtyBlockFor, hdir, List.filterMap_cons]

theorem dloadFilePath_version_inj (comp v w : String)
    (h : dloadFilePath comp v = dloadFilePath comp w) : v = w := by
  have hd : (dloadFilePath comp v).data = (dloadFilePath comp w).data := by
    rw [h]
  rw [dloadFilePath, dloadFilePath, String.data_append, String.data_append]
    at hd
  exact String.ext (List.append_cancel_left hd)

theorem mem_verifiedPathsFor (hexSha : List Nat → String)
    (dload : String → String → Option (List Nat)) (comp : String)
    (upds : List Update) (p : String) :
    p ∈ verifiedPathsFor hexSha dload comp upds ↔
      ∃ u ∈ upds, ∃ bytes, dload comp u.version = some bytes ∧
        hexSha bytes = u.checksum ∧ p = dloadFilePath comp u.version := by
  rw [verifiedPathsFor, List.mem_filterMap]
  constructor
  · rintro ⟨u, hu, hfu⟩
    refine ⟨u, hu, ?_⟩
    cases hdl : dload comp u.version with
    | none => simp [hdl] at hfu
    | some bytes =>
      simp only [hdl] at hfu
      by_cases hcmp : compare_hash hexSha bytes u.checksum = true
      · rw [if_pos hcmp] at hfu
        exact ⟨bytes, rfl, by simpa [compare_hash] using hcmp,
          (Option.some.inj hfu).symm⟩
      · rw [if_neg hcmp] at hfu
        simp at hfu
  · rintro ⟨u, hu, bytes, hdl, hhash, hp⟩
    exact ⟨u, hu, by simp [hdl, compare_hash, hhash, hp]⟩

theorem mem_dirtyPathsFor (hexSha : List Nat → String)
    (dload : String → String → Option (List Nat)) (comp : String)
    (upds : List Update) (p : String) :
    p ∈ dirtyPathsFor hexSha dload comp upds ↔
      ∃ u ∈ upds, ∃ bytes, dload comp u.version = some bytes ∧
        hexSha bytes ≠ u.checksum ∧ p = dloadFilePath comp u.version := by
  rw [dirtyPathsFor, List.mem_filterMap]
  constructor
  · rintro ⟨u, hu, hfu⟩
    refine ⟨u, hu, ?_⟩
    cases hdl : dload comp u.version with
    | none => simp [hdl] at hfu
    | some bytes =>
      simp only [hdl] at hfu
      by_cases hcmp : compare_hash hexSha bytes u.checksum = true
      · rw [if_pos hcmp] at hfu
        simp at hfu
      · rw [if_neg hcmp] at hfu
        refine ⟨bytes, rfl, ?_, (Option.some.inj hfu).symm⟩
        intro heq
        exact hcmp (by simp [compare_hash, heq])
  · rintro ⟨u, hu, bytes, hdl, hhash, hp⟩
    refine ⟨u, hu, ?_⟩
    have hcmp : compare_hash hexSha bytes u.checksum = false := by
      rw [compare_hash]
      exact beq_eq_false_iff_ne.mpr hhash
    simp [hdl, hcmp, hp]

theorem mem_verified_entries (hexSha : List Nat → String)
    (dload : String → String → Option (List Nat))
    (createDirOk : String → Bool) (entries : List (String × List Update))
    (comp : String) (l : List String)
    (hmem : (comp, l) ∈
      entries.filterMap (verifiedEntryFor hexSha dload createDirOk)) :
    ∃ upds, (comp, upds) ∈ entries ∧
      createDirOk (get_temp_folder_path ++ comp) = true ∧
      l = verifiedPathsFor hexSha dload comp upds := by
  obtain ⟨c, hc, hce⟩ := List.mem_filterMap.mp hmem
  rw [verifiedEntryFor] at hce
  by_cases hdir : createDirOk (get_temp_folder_path ++ c.1) = true
  · rw [if_pos hdir] at hce
    by_cases hemp : (verifiedPathsFor hexSha dload c.1 c.2).isEmpty = true
    · rw [if_pos hemp] at hce
      exact absurd hce (by simp)
    · rw [if_neg hemp] at hce
      have hpair := Option.some.inj hce
      have hcomp : c.1 = comp := congrArg Prod.fst hpair
      have hl : verifiedPathsFor hexSha dload c.1 c.2 = l :=
        congrArg Prod.snd hpair
      refine ⟨c.2, ?_, by rw [← hcomp]; exact hdir, by rw [← hl, hcomp]⟩
      rw [← hcomp]
      exact (Prod.mk.eta (p := c)) ▸ hc
  · rw [if_neg hdir] at hce
    exact absurd hce (by simp)

/-- C1: every artifact path admitted to the verified map returned by
`dload_and_verify_updates` comes from a download whose bytes' lowercase-
hex SHA-256 digest equals the manifest update's checksum; and every
downloaded artifact whose digest differs has its path excluded from the
component's entry in the returned map and put on the dirty list that the
purge loop deletes.  (Distinct manifest keys and per-component distinct
versions are the `BTreeMap`-backed manifest's shape.) -/
theorem dload_and_verify_updates_correct (hexSha : List Nat → String)
    (dload : String → String → Option (List Nat)) (createRootOk : Bool)
    (createDirOk : String → Bool) (manifest : UpdateManifest) :
    (∀ comp l,
      (comp, l) ∈ (dload_and_verify_updates hexSha dload createRootOk
        createDirOk manifest).verified →
      ∀ p ∈ l, ∃ upds u bytes, (comp, upds) ∈ manifest.list ∧ u ∈ upds ∧
        p = dloadFilePath comp u.version ∧
        dload comp u.version = some bytes ∧ hexSha bytes = u.checksum) ∧
    (∀ comp upds u bytes,
      (manifest.list.map Prod.fst).Nodup →
      (comp, upds) ∈ manifest.list →
      (upds.map Update.version).Nodup →
      u ∈ upds → dload comp u.version = some bytes →
      hexSha bytes ≠ u.checksum → createRootOk = true →
      createDirOk (get_temp_folder_path ++ comp) = true →
      dloadFilePath comp u.version ∈
        (dload_and_verify_updates hexSha dload createRootOk createDirOk
          manifest).dirty ∧
      ∀ l, (comp, l) ∈ (dload_and_verify_updates hexSha dload createRootOk
          createDirOk manifest).verified →
        dloadFilePath comp u.version ∉ l) := by
  constructor
  · intro comp l hmem p hp
    by_cases hroot : createRootOk = true
    · rw [dload_and_verify_updates, if_pos hroot, dload_outer_fold] at hmem
      simp only [List.nil_append] at hmem
      obtain ⟨upds, hentry, _, hl⟩ :=
        mem_verified_entries hexSha dload createDirOk manifest.list comp l hmem
      rw [hl] at hp
      obtain ⟨u, hu, bytes, hdl, hhash, hpu⟩ :=
        (mem_verifiedPathsFor hexSha dload comp upds p).mp hp
      exact ⟨upds, u, bytes, hentry, hu, hpu, hdl, hhash⟩
    · rw [dload_and_verify_updates, if_neg hroot] at hmem
      simp at hmem
  · intro comp upds u bytes hkeys hentry hvers hu hdl hbad hroot hdir
    rw [dload_and_verify_updates, if_pos hroot, dload_outer_fold]
    simp only [List.nil_append]
    constructor
    · apply List.mem_flatten.mpr
      refine ⟨dirtyBlockFor hexSha dload createDirOk (comp, upds),
        List.mem_map_of_mem _ hentry, ?_⟩
      rw [dirtyBlockFor, if_pos hdir]
      exact (mem_dirtyPathsFor hexSha dload comp upds _).mpr
        ⟨u, hu, bytes, hdl, hbad, rfl⟩
    · intro l hl hpl
      obtain ⟨upds', hentry', _, hl2⟩ :=
        mem_verified_entries hexSha dload createDirOk manifest.list comp l hl
      have hupds : upds' = upds := by
        have := List.inj_on_of_nodup_map hkeys hentry' hentry rfl
        exact congrArg Prod.snd this
      rw [hl2, hupds] at hpl
      obtain ⟨u', hu', bytes', hdl', hhash', hpu'⟩ :=
        (mem_verifiedPathsFor hexSha dload comp upds _).mp hpl
      have hveq : u.version = u'.version :=
        dloadFilePath_version_inj comp _ _ hpu'
      have huu : u = u' := List.inj_on_of_nodup_map hvers hu hu' hveq
      rw [← huu, hdl] at hdl'
      have hbeq := Option.some.inj hdl'
      rw [← huu, ← hbeq] at hhash'
      exact hbad hhash'

/-- Witness for `dload_and_verify_updates_correct`: a two-update manifest
where the second artifact's digest ("bb") differs from its checksum
("cc") — its path is deleted and excluded from the verified map. -/
theorem dload_and_verify_updates_correct_witness :
    dloadFilePath "comp" "2" ∈
      (dload_and_verify_updates
        (fun b => if b = [1] then "aa" else "bb")
        (fun _ v => if v = "1" then some [1] else some [2])
        true (fun _ => true)
        ⟨[("comp",
           [{ chainlink := false, checksum := "aa", version := "1",
              changelog := "l1", file_size := none },
            { chainlink := false, checksum := "cc", version := "2",
              changelog := "l2", file_size := none }])]⟩).dirty ∧
    ∀ l, ("comp", l) ∈
      (dload_and_verify_updates
        (fun b => if b = [1] then "aa" else "bb")
        (fun _ v => if v = "1" then some [1] else some [2])
        true (fun _ => true)
        ⟨[("comp",
           [{ chainlink := false, checksum := "aa", version := "1",
              changelog := "l1", file_size := none },
            { chainlink := false, checksum := "cc", version := "2",
              changelog := "l2", file_size := none }])]⟩).verified →
      dloadFilePath "comp" "2" ∉ l :=
  (dload_and_verify_updates_correct
    (fun b => if b = [1] then "aa" else "bb")
    (fun _ v => if v = "1" then some [1] else some [2])
    true (fun _ => true)
    ⟨[("comp",
       [{ chainlink := false, checksum := "aa", version := "1",
          changelog := "l1", file_size := none },
        { chainlink := false, checksum := "cc", version := "2",
          changelog := "l2", file_size := none }])]⟩).2
    "comp"
    [{ chainlink := false, checksum := "aa", version := "1",
       changelog := "l1", file_size := none },
     { chainlink := false, checksum := "cc", version := "2",
       changelog := "l2", file_size := none }]
    { chainlink := false, checksum := "cc", version := "2",
      changelog := "l2", file_size := none }
    [2]
    (by decide) (by decide) (by decide) (by decide) (by decide) (by decide)
    (by decide) (by decide)

/-! ## C6: `request_update_manifest` (`src/version_control/mod.rs`) -/

/-- A message published on the component backhaul by
`request_update_manifest` (`send_state` / `send_changelogs`). -/
inductive MqttMessage where
  | state (s : String)
  | changelogs (s : String)
deriving Repr, DecidableEq

/-- The decoded HTTP response body, as `request_update_manifest` inspects
it after `serde_json::from_str(&txt).unwrap_or_default()`:
`resultTrue` is `response["result"] == true`; `msgNull` is
`response["msg"] == Null`; `manifest = some m` models
`response["msg"]["manifest"]` being a non-empty object that deserializes
to the manifest `m`, and `none` models it being `{}` or `Null`. -/
structure ResponseJson where
  resultTrue : Bool
  msgNull : Bool
  manifest : Option UpdateManifest
deriving Repr, DecidableEq

/-- Outcome of `reqwest::get(&url)` followed by `req.text()`. -/
inductive HttpOutcome where
  | err
  | okNoText
  | ok (resp : ResponseJson)
deriving Repr, DecidableEq

/-- The changelogs payload: `[changelog + "\r\n\r\n"]` for every update of
every component (manifest value order), collected in reverse. -/
def changelogsPayload (m : UpdateManifest) : String :=
  String.join (((m.list.map Prod.snd).flatten.map
    (fun update => update.changelog ++ "\r\n\r\n")).reverse)

/-- `request_update_manifest` from `src/version_control/mod.rs`.
`versions` is the `COMPONENT_VERSIONS` snapshot (its keys are the
component list), `http` the network outcome.  Mutex acquisition always
succeeds in the embedding.  Returns the final value of the
`UPDATE_MANIFEST` slot and the messages published, in order. -/
def request_update_manifest (versions : List (String × String))
    (http : HttpOutcome) : Option UpdateManifest × List MqttMessage :=
  let sent0 := [MqttMessage.state "Looking for updates..."]
  if versions.isEmpty then (none, sent0)
  else
    match http with
    | .err => (none, sent0 ++ [.state "Could not reach Neutron server."])
    | .okNoText => (none, sent0)
    | .ok resp =>
      if resp.resultTrue then
        match resp.manifest with
        | some m =>
          (some m, sent0 ++ [.state "Found updates.",
            .changelogs (changelogsPayload m)])
        | none => (none, sent0 ++ [.state "No updates were found."])
      else if resp.msgNull then
        (none, sent0 ++ [.state "Update manifest response empty."])
      else (none, sent0)

/-- C6: with a non-empty versions table, a response parsing with
`result == true` and `msg.manifest` a non-empty object stores the
decoded manifest into the process-wide slot and publishes a `Changelogs`
command whose payload is the concatenation of `changelog + "\r\n\r\n"`
over every update across all components, reversed (newest first); a
failed HTTP request clears the slot and publishes
"Could not reach Neutron server.". -/
theorem request_update_manifest_correct (versions : List (String × String))
    (resp : ResponseJson) (m : UpdateManifest)
    (hv : versions.isEmpty = false) :
    (resp.resultTrue = true → resp.manifest = some m →
      (request_update_manifest versions (.ok resp)).1 = some m ∧
      (request_update_manifest versions (.ok resp)).2 =
        [.state "Looking for updates...", .state "Found updates.",
         .changelogs (String.join (((m.list.map Prod.snd).flatten.map
           (fun update => update.changelog ++ "\r\n\r\n")).reverse))]) ∧
    ((request_update_manifest versions .err).1 = none ∧
      (request_update_manifest versions .err).2 =
        [.state "Looking for updates...",
         .state "Could not reach Neutron server."]) := by
  refine ⟨?_, ?_⟩
  · intro hres hman
    rw [request_update_manifest]
    simp [hv, hres, hman, changelogsPayload]
  · rw [request_update_manifest]
    simp [hv]

/-- Witness for `request_update_manifest_correct` on a concrete two-update
manifest; the changelogs payload is newest first. -/
theorem request_update_manifest_correct_witness :
    ([("BlackBox", "1")] : List (String × String)).isEmpty = false ∧
    (request_update_manifest [("BlackBox", "1")]
      (.ok { resultTrue := true, msgNull := false,
             manifest := some ⟨[("BlackBox",
               [{ chainlink := false, checksum := "aa", version := "2",
                  changelog := "old", file_size := none },
                { chainlink := false, checksum := "bb", version := "3",
                  changelog := "new", file_size := none }])]⟩ })).1 =
      some ⟨[("BlackBox",
        [{ chainlink := false, checksum := "aa", version := "2",
           changelog := "old", file_size := none },
         { chainlink := false, checksum := "bb", version := "3",
           changelog := "new", file_size := none }])]⟩ ∧
    (request_update_manifest [("BlackBox", "1")]
      (.ok { resultTrue := true, msgNull := false,
             manifest := some ⟨[("BlackBox",
               [{ chainlink := false, checksum := "aa", version := "2",
                  changelog := "old", file_size := none },
                { chainlink := false, checksum := "bb", version := "3",
                  changelog := "new", file_size := none }])]⟩ })).2 =
      [.state "Looking for updates...", .state "Found updates.",
       .changelogs "new\r\n\r\nold\r\n\r\n"] := by
  have h := request_update_manifest_correct [("BlackBox", "1")]
    { resultTrue := true, msgNull := false,
      manifest := some ⟨[("BlackBox",
        [{ chainlink := false, checksum := "aa", version := "2",
           changelog := "old", file_size := none },
         { chainlink := false, checksum := "bb", version := "3",
           changelog := "new", file_size := none }])]⟩ }
    ⟨[("BlackBox",
      [{ chainlink := false, checksum := "aa", version := "2",
         changelog := "old", file_size := none },
       { chainlink := false, checksum := "bb", version := "3",
         changelog := "new", file_size := none }])]⟩
    (by decide)
  obtain ⟨h1, _⟩ := h
  obtain ⟨hslot, hmsgs⟩ := h1 rfl rfl
  refine ⟨by decide, hslot, ?_⟩
  rw [hmsgs]
  decide

/-! ## C5: the certificate watchdog loop body
(`start_watchdog` in `src/encryption_certificates/mod.rs`) -/

/-- chrono's `Duration::num_days` between `nowSec` and `parsedSec`
(seconds): the second difference divided by 86400, truncating toward
zero (Rust integer division). -/
def num_days (nowSec parsedSec : Int) : Int :=
  (nowSec - parsedSec).tdiv 86400

/-- Result of processing one certificate in the watchdog loop: the source
`unwrap`s missing/unparseable `date_issued`, which panics the thread. -/
inductive WatchdogStep where
  | panic
  | ok (cert : CertificateSettings)
      (caRenewalAttempted mainRenewalAttempted : Bool)
deriving Repr, DecidableEq

/-- The CA half of the watchdog loop body: parse the CA's `date_issued`
(`unwrap` panics on `none`, modeled by the outer `none`), check the
`duration - 10` threshold, and on renewal success refresh `date_issued`
from the new file's mtime (`mtimeCA`); on renewal failure only log.
Returns the updated `cert_authority` value and whether renewal was
attempted. -/
def watchdogCaStep (parse : String → Option Int) (nowSec : Int)
    (renewCAOk : Bool) (mtimeCA : Option String)
    (cert : CertificateSettings) : Option (Option CACertificate × Bool) :=
  match cert.cert_authority with
  | none => some (none, false)
  | some ca =>
    match ca.date_issued with
    | none => none
    | some date_issued =>
      match parse date_issued with
      | none => none
      | some parsed_date =>
        if num_days nowSec parsed_date ≥ ca.duration - 10 then
          if renewCAOk then
            some (some { ca with date_issued :=
              match mtimeCA with
              | some d => some d
              | none => ca.date_issued }, true)
          else some (some ca, true)
        else some (some ca, false)

/-- The main-certificate half of the watchdog loop body; same structure
as the CA half, reading `cert.main_certificate` (which the CA half never
modifies). -/
def watchdogMainStep (parse : String → Option Int) (nowSec : Int)
    (renewMainOk : Bool) (mtimeMain : Option String)
    (cert : CertificateSettings) : Option (MainCertificate × Bool) :=
  match cert.main_certificate.date_issued with
  | none => none
  | some date_issued =>
    match parse date_issued with
    | none => none
    | some parsed_date =>
      if num_days nowSec parsed_date ≥
          cert.main_certificate.duration - 10 then
        if renewMainOk then
          some ({ cert.main_certificate with date_issued :=
            match mtimeMain with
            | some d => some d
            | none => cert.main_certificate.date_issued }, true)
        else some (cert.main_certificate, true)
      else some (cert.main_certificate, false)

/-- One certificate's processing in the `start_watchdog` loop body.
Oracles: `parse` is `NaiveDateTime::parse_from_str(-, "%Y-%m-%d
%H:%M:%S")` rendered in seconds (`none` = parse failure, which the
source's `unwrap` turns into a panic); `nowSec` is
`Utc::now().naive_local()` in seconds; `renewCAOk` is the outcome of the
CA's `gen_csr_sign_with_key` call; `renewMainOk` the outcome of the main
certificate's renewal (`gen_csr_sign_with_ca` with the retained
passphrase for CA-signed leaves, `gen_csr_sign_with_key` for self-signed
ones); `mtimeCA`/`mtimeMain` are `get_date_issued` (file mtime) on the
renewed certificate files.  The returned booleans record whether the CA
and the main renewal were attempted. -/
def watchdogCertStep (parse : String → Option Int) (nowSec : Int)
    (renewCAOk : Bool) (mtimeCA : Option String) (renewMainOk : Bool)
    (mtimeMain : Option String) (cert : CertificateSettings) :
    WatchdogStep :=
  match watchdogCaStep parse nowSec renewCAOk mtimeCA cert with
  | none => .panic
  | some (ca', caAttempted) =>
    match watchdogMainStep parse nowSec renewMainOk mtimeMain cert with
    | none => .panic
    | some (main', mainAttempted) =>
      .ok { cert with cert_authority := ca', main_certificate := main' }
        caAttempted mainAttempted

/-- One pass of the watchdog over its retained certificate list; renewal
failures do not stop the loop (only a panic does). -/
def watchdogIteration (parse : String → Option Int) (nowSec : Int)
    (renewCAOk : CertificateSettings → Bool)
    (mtimeCA : CertificateSettings → Option String)
    (renewMainOk : CertificateSettings → Bool)
    (mtimeMain : CertificateSettings → Option String) :
    List CertificateSettings → Option (List CertificateSettings)
  | [] => some []
  | cert :: rest =>
    match watchdogCertStep parse nowSec (renewCAOk cert) (mtimeCA cert)
        (renewMainOk cert) (mtimeMain cert) cert with
    | .panic => none
    | .ok cert' _ _ =>
      match watchdogIteration parse nowSec renewCAOk mtimeCA renewMainOk
          mtimeMain rest with
      | none => none
      | some rest' => some (cert' :: rest')

theorem tdiv_eq_fdiv_of_nonneg (a b : Int) (ha : 0 ≤ a) (hb : 0 ≤ b) :
    a.tdiv b = a.fdiv b := by
  obtain ⟨m, rfl⟩ := Int.eq_ofNat_of_zero_le ha
  obtain ⟨n, rfl⟩ := Int.eq_ofNat_of_zero_le hb
  cases m <;> cases n <;> simp [Int.tdiv, Int.fdiv]

theorem watchdogMainStep_spec (parse : String → Option Int) (nowSec : Int)
    (renewMainOk : Bool) (mtimeMain : Option String)
    (cert : CertificateSettings) (dm : String) (pm : Int)
    (hm : cert.main_certificate.date_issued = some dm)
    (hpm : parse dm = some pm) (hmnn : 0 ≤ nowSec - pm) :
    ∃ main' mainAtt,
      watchdogMainStep parse nowSec renewMainOk mtimeMain cert =
        some (main', mainAtt) ∧
      (mainAtt = true ↔
        (nowSec - pm).fdiv 86400 ≥ cert.main_certificate.duration - 10) ∧
      (mainAtt = true → renewMainOk = true →
        ∀ d, mtimeMain = some d → main'.date_issued = some d) ∧
      (mainAtt = true → renewMainOk = false →
        main' = cert.main_certificate) ∧
      (mainAtt = false → main' = cert.main_certificate) := by
  have hdays : num_days nowSec pm = (nowSec - pm).fdiv 86400 := by
    rw [num_days, tdiv_eq_fdiv_of_nonneg _ _ hmnn (by norm_num)]
  rw [watchdogMainStep.eq_def]
  simp only [hm, hpm]
  by_cases hdue : num_days nowSec pm ≥ cert.main_certificate.duration - 10
  · rw [if_pos hdue]
    cases renewMainOk with
    | true =>
      refine ⟨{ cert.main_certificate with date_issued :=
          match mtimeMain with
          | some d => some d
          | none => some dm }, true, rfl,
        ?_, ?_, ?_, ?_⟩
      · simp [← hdays, hdue]
      · intro _ _ d hd
        simp [hd]
      · intro _ h
        simp at h
      · intro h
        simp at h
    | false =>
      refine ⟨cert.main_certificate, true, rfl, ?_, ?_, ?_, ?_⟩
      · simp [← hdays, hdue]
      · intro _ h
        simp at h
      · intro _ _
        rfl
      · intro h
        simp at h
  · rw [if_neg hdue]
    refine ⟨cert.main_certificate, false, rfl, ?_, ?_, ?_, ?_⟩
    · simp [← hdays, hdue]
    · intro h
      simp at h
    · intro h
      simp at h
    · intro _
      rfl

theorem watchdogCaStep_spec (parse : String → Option Int) (nowSec : Int)
    (renewCAOk : Bool) (mtimeCA : Option String)
    (cert : CertificateSettings) (ca : CACertificate) (dca : String)
    (pca : Int) (hauth : cert.cert_authority = some ca)
    (hdca : ca.date_issued = some dca) (hpca : parse dca = some pca)
    (hcann : 0 ≤ nowSec - pca) :
    ∃ ca' caAtt,
      watchdogCaStep parse nowSec renewCAOk mtimeCA cert =
        some (some ca', caAtt) ∧
      (caAtt = true ↔ (nowSec - pca).fdiv 86400 ≥ ca.duration - 10) := by
  have hdays : num_days nowSec pca = (nowSec - pca).fdiv 86400 := by
    rw [num_days, tdiv_eq_fdiv_of_nonneg _ _ hcann (by norm_num)]
  rw [watchdogCaStep.eq_def]
  simp only [hauth, hdca, hpca]
  by_cases hdue : num_days nowSec pca ≥ ca.duration - 10
  · rw [if_pos hdue]
    cases renewCAOk with
    | true =>
      exact ⟨{ ca with date_issued :=
          match mtimeCA with
          | some d => some d
          | none => some dca }, true, rfl, by simp [← hdays, hdue]⟩
    | false => exact ⟨ca, true, rfl, by simp [← hdays, hdue]⟩
  · rw [if_neg hdue]
    exact ⟨ca, false, rfl, by simp [← hdays, hdue]⟩

/-- C5: for a retained certificate (populated, parseable, non-future
`date_issued`), the watchdog attempts the main renewal exactly when the
floor of the elapsed days is ≥ `duration - 10` (likewise for a present
CA); on successful renewal `date_issued` is refreshed from the new
file's mtime; on failure it is left unchanged so the certificate is
retried on a later cycle, and in either case the iteration continues
with the remaining certificates. -/
theorem watchdog_renewal_correct (parse : String → Option Int)
    (nowSec : Int) (renewCAOk : CertificateSettings → Bool)
    (mtimeCA : CertificateSettings → Option String)
    (renewMainOk : CertificateSettings → Bool)
    (mtimeMain : CertificateSettings → Option String)
    (cert : CertificateSettings) (dm : String) (pm : Int)
    (hm : cert.main_certificate.date_issued = some dm)
    (hpm : parse dm = some pm) (hmnn : 0 ≤ nowSec - pm)
    (hca : ∀ ca, cert.cert_authority = some ca →
      ∃ dca pca, ca.date_issued = some dca ∧ parse dca = some pca ∧
        0 ≤ nowSec - pca) :
    ∃ cert' caAtt mainAtt,
      watchdogCertStep parse nowSec (renewCAOk cert) (mtimeCA cert)
        (renewMainOk cert) (mtimeMain cert) cert = .ok cert' caAtt mainAtt ∧
      (mainAtt = true ↔
        (nowSec - pm).fdiv 86400 ≥ cert.main_certificate.duration - 10) ∧
      (∀ ca dca pca, cert.cert_authority = some ca →
        ca.date_issued = some dca → parse dca = some pca →
        (caAtt = true ↔ (nowSec - pca).fdiv 86400 ≥ ca.duration - 10)) ∧
      (mainAtt = true → renewMainOk cert = true →
        ∀ d, mtimeMain cert = some d →
          cert'.main_certificate.date_issued = some d) ∧
      (mainAtt = true → renewMainOk cert = false →
        cert'.main_certificate.date_issued =
          cert.main_certificate.date_issued) ∧
      (mainAtt = false → cert'.main_certificate.date_issued =
        cert.main_certificate.date_issued) ∧
      (∀ rest rest', watchdogIteration parse nowSec renewCAOk mtimeCA
          renewMainOk mtimeMain rest = some rest' →
        watchdogIteration parse nowSec renewCAOk mtimeCA renewMainOk
          mtimeMain (cert :: rest) = some (cert' :: rest')) := by
  obtain ⟨main', mainAtt, hmain, hmiff, hmok, hmfail, hmskip⟩ :=
    watchdogMainStep_spec parse nowSec (renewMainOk cert) (mtimeMain cert)
      cert dm pm hm hpm hmnn
  obtain ⟨ca', caAtt, hcastep, hcaiff⟩ :
      ∃ ca' caAtt, watchdogCaStep parse nowSec (renewCAOk cert)
          (mtimeCA cert) cert = some (ca', caAtt) ∧
        ∀ ca dca pca, cert.cert_authority = some ca →
          ca.date_issued = some dca → parse dca = some pca →
          (caAtt = true ↔ (nowSec - pca).fdiv 86400 ≥ ca.duration - 10) := by
    cases hauth : cert.cert_authority with
    | none =>
      refine ⟨none, false, by rw [watchdogCaStep.eq_def]; simp [hauth], ?_⟩
      intro ca _ _ h
      simp [hauth] at h
    | some ca =>
      obtain ⟨dca, pca, hdca, hpca, hcann⟩ := hca ca hauth
      obtain ⟨ca2, caAtt, hstep, hiff⟩ :=
        watchdogCaStep_spec parse nowSec (renewCAOk cert) (mtimeCA cert)
          cert ca dca pca hauth hdca hpca hcann
      refine ⟨some ca2, caAtt, hstep, ?_⟩
      intro ca0 dca0 pca0 hauth0 hdca0 hpca0
      have hcc : ca0 = ca := (Option.some.inj hauth0).symm
      subst hcc
      rw [hdca] at hdca0
      have : dca0 = dca := (Option.some.inj hdca0).symm
      subst this
      rw [hpca] at hpca0
      have : pca0 = pca := (Option.some.inj hpca0).symm
      subst this
      exact hiff
  have hstep : watchdogCertStep parse nowSec (renewCAOk cert) (mtimeCA cert)
      (renewMainOk cert) (mtimeMain cert) cert =
      .ok { cert with cert_authority := ca', main_certificate := main' }
        caAtt mainAtt := by
    rw [watchdogCertStep.eq_def, hcastep, hmain]
  refine ⟨{ cert with cert_authority := ca', main_certificate := main' },
    caAtt, mainAtt, hstep, hmiff, hcaiff, ?_, ?_, ?_, ?_⟩
  · intro h1 h2 d hd
    exact hmok h1 h2 d hd
  · intro h1 h2
    exact congrArg MainCertificate.date_issued (hmfail h1 h2)
  · intro h1
    exact congrArg MainCertificate.date_issued (hmskip h1)
  · intro rest rest' hrest
    simp only [watchdogIteration, hstep, hrest]

/-- A retained self-signed certificate, 25 days old, 30-day duration. -/
def watchdogDemoCert : CertificateSettings :=
  { selfSignedX with
    main_certificate := { selfSignedX.main_certificate with
      duration := 30, date_issued := some "2020-01-01 00:00:00" } }

/-- Date parsing oracle for the demo certificate. -/
def demoParse : String → Option Int :=
  fun s => if s = "2020-01-01 00:00:00" then some 0 else none

/-- Witness for `watchdog_renewal_correct`: 25 elapsed days against a
30-day duration crosses the `duration - 10` margin, so the main renewal
is attempted and `date_issued` is refreshed from the new mtime. -/
theorem watchdog_renewal_correct_witness :
    ∃ cert' caAtt mainAtt,
      watchdogCertStep demoParse 2160000 false none true
          (some "2020-01-26 00:00:00") watchdogDemoCert =
        .ok cert' caAtt mainAtt ∧
      (mainAtt = true ↔ ((2160000 : Int) - 0).fdiv 86400 ≥
        watchdogDemoCert.main_certificate.duration - 10) ∧
      (∀ ca dca pca, watchdogDemoCert.cert_authority = some ca →
        ca.date_issued = some dca → demoParse dca = some pca →
        (caAtt = true ↔ ((2160000 : Int) - pca).fdiv 86400 ≥
          ca.duration - 10)) ∧
      (mainAtt = true → true = true → ∀ d,
        (some "2020-01-26 00:00:00" : Option String) = some d →
        cert'.main_certificate.date_issued = some d) ∧
      (mainAtt = true → true = false →
        cert'.main_certificate.date_issued =
          watchdogDemoCert.main_certificate.date_issued) ∧
      (mainAtt = false → cert'.main_certificate.date_issued =
        watchdogDemoCert.main_certificate.date_issued) ∧
      (∀ rest rest', watchdogIteration demoParse 2160000 (fun _ => false)
          (fun _ => none) (fun _ => true)
          (fun _ => some "2020-01-26 00:00:00") rest = some rest' →
        watchdogIteration demoParse 2160000 (fun _ => false) (fun _ => none)
          (fun _ => true) (fun _ => some "2020-01-26 00:00:00")
          (watchdogDemoCert :: rest) = some (cert' :: rest')) :=
  watchdog_renewal_correct demoParse 2160000 (fun _ => false) (fun _ => none)
    (fun _ => true) (fun _ => some "2020-01-26 00:00:00") watchdogDemoCert
    "2020-01-01 00:00:00" 0 (by decide) (by decide) (by decide)
    (by intro ca h
        simp [watchdogDemoCert, selfSignedX] at h)

end NECO
